import Mathlib

/-!
Verification development for the quality-runner layer of the vmaf repository
(file src/python/core/quality_runner.py).

Modelling conventions:
- Python floating point values are modelled as rationals; the claims under
  study are about the algebraic shape of the computations, not about IEEE
  rounding.
- A Python function that can raise is embedded as an `Option`-returning
  function, `none` standing for a raised exception (AssertionError,
  ValueError); a function whose body cannot raise returns `some` on every
  input.
- Collaborators that live outside the file under study (the feature
  assembler, the SVR predictor, the loaded regression model) are passed in
  as explicit parameters.
-/

/-! ### QualityRunner base class -/

/-- QualityRunner.get_scores_key: the TYPE tag suffixed with "_scores". -/
def get_scores_key (ty : String) : String := ty ++ "_scores"

/-- QualityRunner.get_score_key: the TYPE tag suffixed with "_score". -/
def get_score_key (ty : String) : String := ty ++ "_score"

/-- Lookup in an association list modelling a Python dict access
`d[k]` (the value of the first pair whose key equals `k`). -/
def optLookup (k : String) (d : List (String × String)) : Option String :=
  (d.find? (fun p => p.1 == k)).map Prod.snd

/-- Lexicographic code-point comparison of character lists: this is the
order in which Python `sorted` arranges the optional-parameter key
strings. -/
def charsLe : List Char → List Char → Bool
  | [], _ => true
  | _ :: _, [] => false
  | a :: as, b :: bs =>
    if a.toNat < b.toNat then true
    else if b.toNat < a.toNat then false
    else charsLe as bs

/-- String comparison used to model Python `sorted` over dict keys. -/
def strLe (a b : String) : Bool := charsLe a.data b.data

/-- QualityRunner._read_result, identity part: the executor id, extended --
when the optional dict is present -- with each optional parameter rendered
as `key_value`, keys sorted, all joined with an underscore. -/
def executorIdWithOpt (eid : String) (opt : Option (List (String × String))) : String :=
  match opt with
  | none => eid
  | some d =>
    eid ++ "_" ++ String.intercalate "_"
      (((d.map Prod.fst).mergeSort strLe).map
        (fun k => k ++ "_" ++ ((optLookup k d).getD "")))

/-- The Result record built by QualityRunner._read_result: the executor
identity together with the score mapping. -/
structure RunnerResult where
  executorId : String
  resultDict : List (String × List ℚ)

/-- QualityRunner._read_result: combines the quality scores with the
extended executor identity. -/
def read_result (eid : String) (opt : Option (List (String × String)))
    (qualityScores : List (String × List ℚ)) : RunnerResult :=
  ⟨executorIdWithOpt eid opt, qualityScores⟩

/-! ### PsnrQualityRunner -/

/-- The TYPE tag of PsnrQualityRunner. -/
def psnrType : String := "PSNR"

/-- Characters admitted by the value group `[0-9.-]+` of the PSNR log
regex. -/
def isValChar (c : Char) : Bool := c.isDigit || c == '.' || c == '-'

/-- Decimal value of a digit string (used for `int(...)` on the index group
and for the integral part of `float(...)`). -/
def natOfDigits (ds : List Char) : Nat :=
  ds.foldl (fun n c => 10 * n + (c.toNat - 48)) 0

/-- Embedding of `re.match(r"psnr: ([0-9]+) ([0-9.-]+)", line)`: the line
must start with the literal "psnr: ", then one or more digits (group 1),
one space, then one or more characters from `[0-9.-]` (group 2, taken
greedily); anything after the match is ignored, as `re.match` only anchors
at the start. Returns the index (as a Nat) and the raw value characters. -/
def parsePsnrLine (s : String) : Option (Nat × List Char) :=
  match s.data with
  | 'p' :: 's' :: 'n' :: 'r' :: ':' :: ' ' :: rest =>
    let ds := rest.takeWhile Char.isDigit
    if ds.isEmpty then none
    else
      match rest.dropWhile Char.isDigit with
      | ' ' :: r2 =>
        let vs := r2.takeWhile isValChar
        if vs.isEmpty then none else some (natOfDigits ds, vs)
      | _ => none
  | _ => none

/-- Python `float(...)` on a string drawn from `[0-9.-]`, unsigned part:
digits, optionally a dot and more digits, at least one digit overall and
nothing else; everything different raises ValueError (`none`). -/
def pyFloatUnsigned (cs : List Char) : Option ℚ :=
  let ip := cs.takeWhile Char.isDigit
  match cs.dropWhile Char.isDigit with
  | [] => if ip.isEmpty then none else some (natOfDigits ip)
  | '.' :: fr =>
    let fp := fr.takeWhile Char.isDigit
    if (fr.dropWhile Char.isDigit).isEmpty then
      if ip.isEmpty && fp.isEmpty then none
      else some ((natOfDigits ip : ℚ) + (natOfDigits fp : ℚ) / 10 ^ fp.length)
    else none
  | _ => none

/-- Python `float(...)` on a string drawn from `[0-9.-]`: an optional
single leading minus sign, then the unsigned form. -/
def pyFloat (cs : List Char) : Option ℚ :=
  if cs.head? = some '-' then (pyFloatUnsigned cs.tail).map Neg.neg
  else pyFloatUnsigned cs

/-- The loop of PsnrQualityRunner._get_quality_scores: over the log lines,
a matched line must carry the current counter as its index (otherwise the
assert raises), its value is converted by `float` and appended; unmatched
lines are skipped. After the loop, an empty score list makes the final
assert raise. -/
def goPsnr (counter : Nat) (acc : List ℚ) : List String → Option (List ℚ)
  | [] => if acc.isEmpty then none else some acc
  | line :: rest =>
    match parsePsnrLine line with
    | none => goPsnr counter acc rest
    | some (idx, vs) =>
      if idx = counter then
        match pyFloat vs with
        | some q => goPsnr (counter + 1) (acc ++ [q]) rest
        | none => none
      else none

/-- PsnrQualityRunner._get_quality_scores, score-list part: run the parsing
loop from counter 0 with an empty accumulator. -/
def get_quality_scores (lines : List String) : Option (List ℚ) :=
  goPsnr 0 [] lines

/-- PsnrQualityRunner._get_quality_scores, full return value: the score
list stored under the scores key derived from the PSNR TYPE tag. -/
def get_quality_result (lines : List String) : Option (String × List ℚ) :=
  (get_quality_scores lines).map (fun s => (get_scores_key psnrType, s))

/-- The matched lines of a log: those accepted by the regex, in order. -/
def matchedEntries (lines : List String) : List (Nat × List Char) :=
  lines.filterMap parsePsnrLine

/-! ### VmafLegacyQualityRunner -/

/-- The TYPE tag of VmafLegacyQualityRunner. -/
def vmafLegacyType : String := "VMAF_legacy"

/-- FEATURE_RESCALE_DICT: the per-feature clipping/normalization bounds of
the legacy pipeline (0.4 = 2/5). -/
def FEATURE_RESCALE_DICT : List (String × (ℚ × ℚ)) :=
  [("VMAF_feature_vif_scores", (0, 1)),
   ("VMAF_feature_adm_scores", (2/5, 1)),
   ("VMAF_feature_ansnr_scores", (10, 50)),
   ("VMAF_feature_motion_scores", (0, 20))]

/-- SVM_MODEL_ORDERED_SCORES_KEYS: the fixed feature order expected by the
legacy SVR model. -/
def SVM_MODEL_ORDERED_SCORES_KEYS : List String :=
  ["VMAF_feature_vif_scores",
   "VMAF_feature_adm_scores",
   "VMAF_feature_ansnr_scores",
   "VMAF_feature_motion_scores"]

/-- Bounds looked up in FEATURE_RESCALE_DICT for a given scores key. -/
def featureRescaleBounds (k : String) : ℚ × ℚ :=
  ((FEATURE_RESCALE_DICT.find? (fun p => p.1 == k)).map Prod.snd).getD (0, 0)

/-- Scalar core of VmafLegacyQualityRunner._rescale: numpy clip
(minimum of the upper bound and maximum of the lower bound and the value)
followed by the linear normalization. -/
def rescaleVal (v : ℚ) (b : ℚ × ℚ) : ℚ :=
  (min b.2 (max b.1 v) - b.1) / (b.2 - b.1)

/-- VmafLegacyQualityRunner._rescale on a per-frame sequence. The body of
the source function is straight-line numpy code with no bounds check and
no raise, so the embedding returns `some` on every input; at degenerate
bounds (upper = lower) the division is still performed and the rational
returned stands in for the non-finite values numpy produces there. -/
def rescale (vals : List ℚ) (b : ℚ × ℚ) : Option (List ℚ) :=
  some (vals.map (fun v => rescaleVal v b))

/-- Python `zip` over the four rescaled sequences (truncates at the
shortest list). -/
def zip4 : List ℚ → List ℚ → List ℚ → List ℚ → List (ℚ × ℚ × ℚ × ℚ)
  | a :: as, b :: bs, c :: cs, d :: ds => (a, b, c, d) :: zip4 as bs cs ds
  | _, _, _, _ => []

/-- VmafLegacyQualityRunner._post_correction: when the motion argument
exceeds 12.0 the score is multiplied by ((min(motion, 20) - 12) * 0.015 + 1)
(0.015 = 3/200); then the score is clamped to [0, 100]. -/
def post_correction (motion score : ℚ) : ℚ :=
  let score := if motion > 12 then score * ((min motion 20 - 12) * (3/200) + 1) else score
  if score > 100 then 100 else if score < 0 then 0 else score

/-- Per-frame feature sequences delivered by the feature assembler to the
legacy pipeline, one list per scores key of SVM_MODEL_ORDERED_SCORES_KEYS. -/
structure LegacyFeatureResult where
  vif : List ℚ
  adm : List ℚ
  ansnr : List ℚ
  motion : List ℚ

/-- Core of VmafLegacyQualityRunner._run_on_asset: rescale the four feature
sequences with their FEATURE_RESCALE_DICT bounds, zip them per frame in the
SVM model order (vif, adm, ansnr, motion), feed each vector to the SVR
predictor, and post-correct the predicted score with the motion component
of the zipped (rescaled) vector. The SVR predictor is an external
collaborator and is passed in as a function. -/
def legacy_run_on_asset (predict : ℚ → ℚ → ℚ → ℚ → ℚ)
    (fr : LegacyFeatureResult) : List ℚ :=
  let svif := fr.vif.map
    (fun v => rescaleVal v (featureRescaleBounds "VMAF_feature_vif_scores"))
  let sadm := fr.adm.map
    (fun v => rescaleVal v (featureRescaleBounds "VMAF_feature_adm_scores"))
  let sansnr := fr.ansnr.map
    (fun v => rescaleVal v (featureRescaleBounds "VMAF_feature_ansnr_scores"))
  let smotion := fr.motion.map
    (fun v => rescaleVal v (featureRescaleBounds "VMAF_feature_motion_scores"))
  (zip4 svif sadm sansnr smotion).map
    (fun p => post_correction p.2.2.2 (predict p.1 p.2.1 p.2.2.1 p.2.2.2))

/-! ### VmafQualityRunner -/

/-- The TYPE tag of VmafQualityRunner. -/
def vmafType : String := "VMAF"

/-- The metadata of a loaded TrainTestModel relevant here: the values of
`get_appended_info` for the keys used by the runner. Absent keys are
`none`, matching the "key absent gives None" contract of the model. -/
structure ModelInfo where
  score_clip : Option (ℚ × ℚ)
  dis1st_thr : Option ℚ

/-- Modelled from the spec: `MomentFeatureExtractor.get_score_key('dis1st')`
lives in feature_extractor.py, which is not part of the sources under
study; per the spec the score key of a feature atom is the extractor TYPE
tag joined with the atom name and the "_scores" suffix (the same
convention visible in FEATURE_RESCALE_DICT), giving the key of the
distorted-luma-first-moment feature. -/
def dis1stScoreKey : String := "Moment_dis1st_scores"

/-- VmafQualityRunner.clip_score: when the model carries score_clip
metadata, numpy-clip every predicted value with its bounds; when the
metadata is absent, return the predictions unchanged. -/
def clip_score (m : ModelInfo) (ys : List ℚ) : List ℚ :=
  match m.score_clip with
  | some (lb, ub) => ys.map (fun y => min ub (max lb y))
  | none => ys

/-- VmafQualityRunner.warp_score: when dis1st_thr and score_clip are both
present in the model metadata and the distorted-luma-first-moment key is
present in the input mapping, each predicted score y paired with a feature
value d below the threshold is replaced by y_max - d * (y_max - y) / thr
(y_max being the upper clip bound); otherwise the predictions are returned
unchanged. The assert on equal lengths raises (`none`) when the feature
sequence and the predictions disagree in length. -/
def warp_score (m : ModelInfo) (xs : String → Option (List ℚ))
    (ys_pred : List ℚ) : Option (List ℚ) :=
  match m.dis1st_thr, m.score_clip, xs dis1stScoreKey with
  | some thr, some sc, some dis1sts =>
    if dis1sts.length = ys_pred.length then
      some ((ys_pred.zip dis1sts).map
        (fun p => if p.2 < thr then sc.2 - p.2 * (sc.2 - p.1) / thr else p.1))
    else none
  | _, _, _ => some ys_pred

/-- Core of VmafQualityRunner._run_on_asset: the model predicts the
per-frame scores from the per-frame feature vectors, clip_score is applied
to the predictions, and the clipped sequence is stored in the result dict
under the scores key, after the assembled feature sequences. The
per-frame vector extraction and the prediction itself are external
collaborators, passed in as parameters. -/
def vmaf_run_on_asset (m : ModelInfo) (predict : List (List ℚ) → List ℚ)
    (eid : String) (perframeXs : List (List ℚ))
    (featureResultDict : List (String × List ℚ)) : RunnerResult :=
  ⟨eid, featureResultDict ++ [(get_scores_key vmafType, clip_score m (predict perframeXs))]⟩

/-! ### Helper lemmas -/

/-- Mapping a two-argument function over a zip is a zipWith. -/
theorem zip_map_eq_zipWith {α β γ : Type} (f : α → β → γ) :
    ∀ (ys : List α) (ds : List β),
      (ys.zip ds).map (fun p => f p.1 p.2) = List.zipWith f ys ds
  | [], _ => by simp
  | _ :: _, [] => by simp
  | y :: ys, d :: ds => by
    simpa using zip_map_eq_zipWith f ys ds

/-- Intercalating a one-element list is the element itself. -/
theorem intercalate_singleton (s : String) : String.intercalate "_" [s] = s := rfl

/-- Appending on the left of a string is injective. -/
theorem string_append_cancel_left {a b c : String} (h : a ++ b = a ++ c) : b = c := by
  have hd := congrArg String.data h
  simp only [String.data_append] at hd
  exact congrArg String.mk (List.append_cancel_left hd)

/-! ### C6: the legacy rescale formula -/

/-- C6: for bounds with upper > lower, the legacy rescale maps a value v to
(clip(v, lower, upper) - lower) / (upper - lower) -- with the resulting
quotient lying in [0, 1] -- and does so elementwise on a per-frame
sequence. -/
theorem rescale_clip_normalize_formula (l u : ℚ) (h : l < u) :
    (∀ v, rescaleVal v (l, u) = (max l (min v u) - l) / (u - l) ∧
      0 ≤ rescaleVal v (l, u) ∧ rescaleVal v (l, u) ≤ 1) ∧
    ∀ vals : List ℚ, rescale vals (l, u) = some (vals.map (fun v => rescaleVal v (l, u))) := by
  constructor
  · intro v
    have hcl : min u (max l v) = max l (min v u) := by
      rcases le_total v l with h1 | h1 <;> rcases le_total v u with h2 | h2 <;>
        simp [min_def, max_def] <;> split_ifs <;> linarith
    have hlo : l ≤ min u (max l v) := le_min h.le (le_max_left _ _)
    have hhi : min u (max l v) ≤ u := min_le_left _ _
    refine ⟨by rw [rescaleVal, hcl], ?_, ?_⟩
    · exact div_nonneg (by simpa [rescaleVal] using sub_nonneg.2 hlo) (by linarith)
    · refine div_le_one_of_le₀ ?_ (by linarith)
      show min u (max l v) - l ≤ u - l
      linarith
  · intro vals
    rfl

/-- Witness for C6: the spec scenario, rescaling 0.7 with bounds
(0.4, 1.0) gives 0.5. -/
theorem rescale_clip_normalize_formula_witness :
    rescaleVal (7/10) (2/5, 1) = 1/2 := by
  have h := ((rescale_clip_normalize_formula (2/5) 1 (by norm_num)).1 (7/10)).1
  rw [h]
  norm_num [min_def, max_def]

/-! ### C3: degenerate rescale bounds -/

/-- Counterexample for C3: with degenerate bounds (upper = lower = 1) the
legacy rescale still returns a value -- no configuration error is raised
before (or instead of) the division. -/
theorem rescale_degenerate_bounds_not_rejected :
    (rescale [7/10] ((1 : ℚ), 1)).isSome = true := rfl

/-- C3 amended: the legacy rescale performs no bounds check at all (it
returns on every input, including degenerate bounds, where the division by
zero is performed silently); separately, every bound pair the legacy
pipeline actually supplies (FEATURE_RESCALE_DICT) satisfies lower < upper. -/
theorem rescale_total_and_builtin_bounds_nondegenerate :
    (∀ (vals : List ℚ) (b : ℚ × ℚ), (rescale vals b).isSome = true) ∧
    ∀ p ∈ FEATURE_RESCALE_DICT, p.2.1 < p.2.2 := by
  constructor
  · intro vals b
    rfl
  · intro p hp
    fin_cases hp <;> norm_num

/-- Witness for C3: the amended theorem applied to a degenerate bound pair
and to a concrete entry of FEATURE_RESCALE_DICT. -/
theorem rescale_total_and_builtin_bounds_nondegenerate_witness :
    (rescale [7/10] ((1 : ℚ), 1)).isSome = true ∧ (2/5 : ℚ) < 1 := by
  constructor
  · exact rescale_total_and_builtin_bounds_nondegenerate.1 [7/10] (1, 1)
  · have hm : ("VMAF_feature_adm_scores", ((2/5 : ℚ), (1 : ℚ))) ∈ FEATURE_RESCALE_DICT := by
      simp [FEATURE_RESCALE_DICT]
    exact rescale_total_and_builtin_bounds_nondegenerate.2 _ hm

/-! ### C1: the legacy motion post-correction -/

/-- C1 (code bug evidence): in the legacy pipeline the value handed to
_post_correction is the rescaled motion, not the raw one. On a frame with
raw motion 15 (> 12) and a predictor returning 80, the pipeline leaves the
score at 80 -- the rescaled motion 15/20 = 0.75 never exceeds 12 -- while
_post_correction applied to the raw motion 15, as the spec describes,
would give 80 * (1 + 0.015 * (15 - 12)) = 83.6 = 418/5. -/
theorem legacy_pipeline_post_correction_uses_rescaled_motion :
    legacy_run_on_asset (fun _ _ _ _ => 80) ⟨[1/2], [7/10], [30], [15]⟩ = [80] ∧
    post_correction 15 80 = 418/5 := by
  constructor
  · have h1 : featureRescaleBounds "VMAF_feature_vif_scores" = (0, 1) := rfl
    have h2 : featureRescaleBounds "VMAF_feature_adm_scores" = (2/5, 1) := rfl
    have h3 : featureRescaleBounds "VMAF_feature_ansnr_scores" = (10, 50) := rfl
    have h4 : featureRescaleBounds "VMAF_feature_motion_scores" = (0, 20) := rfl
    norm_num [legacy_run_on_asset, h1, h2, h3, h4, rescaleVal, zip4, post_correction,
      min_def, max_def]
  · norm_num [post_correction, min_def]

/-! ### C10: warp_score with a missing prerequisite -/

/-- C10: warp_score returns the predictions unchanged, raising nothing,
whenever any of its three prerequisites is missing: the dis1st_thr
metadata, the score_clip metadata, or the distorted-luma-first-moment
key in the input mapping. -/
theorem warp_score_missing_prerequisite_identity (m : ModelInfo)
    (xs : String → Option (List ℚ)) (ys : List ℚ)
    (h : m.dis1st_thr = none ∨ m.score_clip = none ∨ xs dis1stScoreKey = none) :
    warp_score m xs ys = some ys := by
  rcases hthr : m.dis1st_thr with _ | thr <;>
    rcases hsc : m.score_clip with _ | sc <;>
    rcases hxs : xs dis1stScoreKey with _ | ds <;>
    simp_all [warp_score]

/-- Witness for C10: score_clip present and the feature key present, but
dis1st_thr missing, leaves the predictions untouched. -/
theorem warp_score_missing_prerequisite_identity_witness :
    warp_score ⟨some (0, 100), none⟩ (fun _ => some [2]) [90] = some [90] :=
  warp_score_missing_prerequisite_identity _ _ _ (Or.inl rfl)

/-! ### C7: clip_score and its place in the general pipeline -/

/-- C7: when score_clip = (lb, ub) is present clip_score clamps every
predicted value with those bounds (and, for lb <= ub, every output lies in
[lb, ub]); when score_clip is absent the predictions come back unchanged
with no error; and the general inference path stores exactly
clip_score of the model predictions under the scores key. -/
theorem clip_score_clamps_and_absent_is_identity (m : ModelInfo) (ys : List ℚ) :
    (∀ lb ub, m.score_clip = some (lb, ub) →
      clip_score m ys = ys.map (fun y => min ub (max lb y)) ∧
      (lb ≤ ub → ∀ y ∈ clip_score m ys, lb ≤ y ∧ y ≤ ub)) ∧
    (m.score_clip = none → clip_score m ys = ys) ∧
    ∀ (predict : List (List ℚ) → List ℚ) (eid : String) (xs : List (List ℚ))
      (fd : List (String × List ℚ)),
      (vmaf_run_on_asset m predict eid xs fd).resultDict =
        fd ++ [(get_scores_key vmafType, clip_score m (predict xs))] := by
  refine ⟨?_, ?_, ?_⟩
  · intro lb ub hsc
    have he : clip_score m ys = ys.map (fun y => min ub (max lb y)) := by
      unfold clip_score
      rw [hsc]
    refine ⟨he, fun hle y hy => ?_⟩
    rw [he] at hy
    obtain ⟨x, _, rfl⟩ := List.mem_map.1 hy
    exact ⟨le_min hle (le_max_left _ _), min_le_left _ _⟩
  · intro h
    unfold clip_score
    rw [h]
  · intro predict eid xs fd
    rfl

/-- Witness for C7: concrete clamping with score_clip = (0, 100), and the
identity behavior with score_clip absent. -/
theorem clip_score_clamps_and_absent_is_identity_witness :
    clip_score ⟨some (0, 100), none⟩ [150, -3, 50] = [100, 0, 50] ∧
    clip_score ⟨none, none⟩ [150] = [150] := by
  constructor
  · have h := ((clip_score_clamps_and_absent_is_identity ⟨some (0, 100), none⟩
      [150, -3, 50]).1 0 100 rfl).1
    rw [h]
    norm_num [min_def, max_def]
  · exact (clip_score_clamps_and_absent_is_identity ⟨none, none⟩ [150]).2.1 rfl

/-! ### C5: warp_score with all prerequisites present -/

/-- C5: with score_clip = (lo, hi) and dis1st_thr = thr present and the
distorted-luma-first-moment sequence ds available with the same length as
the predictions, warp_score replaces each score y paired with d < thr by
hi - d * (hi - y) / thr and keeps frames with d >= thr unchanged. -/
theorem warp_score_formula (m : ModelInfo) (xs : String → Option (List ℚ))
    (lo hi thr : ℚ) (ys ds : List ℚ)
    (hthr : m.dis1st_thr = some thr) (hsc : m.score_clip = some (lo, hi))
    (hxs : xs dis1stScoreKey = some ds) (hlen : ds.length = ys.length) :
    warp_score m xs ys =
      some (List.zipWith (fun y d => if d < thr then hi - d * (hi - y) / thr else y) ys ds) := by
  simp only [warp_score, hthr, hsc, hxs, hlen, if_true]
  exact congrArg some
    (zip_map_eq_zipWith (fun y d => if d < thr then hi - d * (hi - y) / thr else y) ys ds)

/-- Witness for C5: the spec scenario score_clip = (0, 100), dis1st_thr = 5,
dis1st = 2, y = 90 warps to 96. -/
theorem warp_score_formula_witness :
    warp_score ⟨some (0, 100), some 5⟩
      (fun k => if k = dis1stScoreKey then some [2] else none) [90] = some [96] := by
  have h := warp_score_formula ⟨some (0, 100), some 5⟩
    (fun k => if k = dis1stScoreKey then some [2] else none) 0 100 5 [90] [2]
    rfl rfl (by simp) rfl
  rw [h]
  norm_num

/-! ### C9: unmatched log lines are ignored -/

/-- C9: a log line the regex does not match contributes no score, does not
advance the counter, and raises no error: the parsing loop on such a line
is the loop on the remaining lines, with the same counter and accumulator,
and the overall parse of a log starting with such a line equals the parse
of the rest. -/
theorem psnr_unmatched_line_ignored (line : String) (h : parsePsnrLine line = none) :
    (∀ counter acc rest, goPsnr counter acc (line :: rest) = goPsnr counter acc rest) ∧
    ∀ rest, get_quality_scores (line :: rest) = get_quality_scores rest := by
  have hgo : ∀ counter acc rest, goPsnr counter acc (line :: rest) = goPsnr counter acc rest := by
    intro counter acc rest
    simp only [goPsnr, h]
  exact ⟨hgo, fun rest => hgo 0 [] rest⟩

/-- Witness for C9: a non-matching line ahead of a matching log leaves the
result unchanged. -/
theorem psnr_unmatched_line_ignored_witness :
    get_quality_scores ["frame 0 ok", "psnr: 0 1"] = get_quality_scores ["psnr: 0 1"] :=
  (psnr_unmatched_line_ignored "frame 0 ok" (by decide)).2 ["psnr: 0 1"]

/-! ### C4: fatal integrity checks of the PSNR parser -/

/-- Whenever the parsing loop succeeds, the indices of the matched lines it
consumed are exactly counter, counter + 1, counter + 2, ... -/
theorem goPsnr_some_indices :
    ∀ (lines : List String) (counter : Nat) (acc s : List ℚ),
      goPsnr counter acc lines = some s →
      (matchedEntries lines).map Prod.fst =
        List.range' counter (matchedEntries lines).length
  | [], counter, acc, s, _ => by simp [matchedEntries]
  | line :: rest, counter, acc, s, h => by
    rcases hp : parsePsnrLine line with _ | ⟨idx, vs⟩
    · rw [show matchedEntries (line :: rest) = matchedEntries rest from by
        simp [matchedEntries, hp]]
      simp only [goPsnr, hp] at h
      exact goPsnr_some_indices rest counter acc s h
    · simp only [goPsnr, hp] at h
      by_cases hidx : idx = counter
      · rw [if_pos hidx] at h
        rcases hf : pyFloat vs with _ | q
        · rw [hf] at h
          exact absurd h (by simp)
        · rw [hf] at h
          have hrest := goPsnr_some_indices rest (counter + 1) (acc ++ [q]) s h
          have hm : matchedEntries (line :: rest) = (idx, vs) :: matchedEntries rest := by
            simp [matchedEntries, hp]
          rw [hm]
          simp only [List.map_cons, List.length_cons, List.range'_succ, hrest, hidx]
      · rw [if_neg hidx] at h
        exact absurd h (by simp)

/-- Whenever the parsing loop succeeds, the returned list is nonempty. -/
theorem goPsnr_some_ne_nil :
    ∀ (lines : List String) (counter : Nat) (acc s : List ℚ),
      goPsnr counter acc lines = some s → s ≠ []
  | [], counter, acc, s, h => by
    rcases acc with _ | ⟨a, as⟩
    · simp [goPsnr] at h
    · simp only [goPsnr, List.isEmpty_cons, if_neg] at h
      simp [← Option.some.injEq _ _ |>.mp h]
  | line :: rest, counter, acc, s, h => by
    rcases hp : parsePsnrLine line with _ | ⟨idx, vs⟩
    · simp only [goPsnr, hp] at h
      exact goPsnr_some_ne_nil rest counter acc s h
    · simp only [goPsnr, hp] at h
      by_cases hidx : idx = counter
      · rw [if_pos hidx] at h
        rcases hf : pyFloat vs with _ | q
        · rw [hf] at h
          exact absurd h (by simp)
        · rw [hf] at h
          exact goPsnr_some_ne_nil rest (counter + 1) (acc ++ [q]) s h
      · rw [if_neg hidx] at h
        exact absurd h (by simp)

/-- With no matched line at all, the parsing loop started on an empty
accumulator fails. -/
theorem goPsnr_no_match_none :
    ∀ (lines : List String), matchedEntries lines = [] →
      ∀ counter, goPsnr counter [] lines = none
  | [], _, _ => rfl
  | line :: rest, hm, counter => by
    rcases hp : parsePsnrLine line with _ | ⟨idx, vs⟩
    · have hrest : matchedEntries rest = [] := by
        simpa [matchedEntries, hp] using hm
      simp only [goPsnr, hp]
      exact goPsnr_no_match_none rest hrest counter
    · exact absurd hm (by simp [matchedEntries, hp])

/-- C4: the PSNR score parser fails (returns no result) whenever the
matched indices deviate anywhere from the counter sequence 0, 1, 2, ...,
fails when the log has no matched line at all, and a successfully returned
score list is never empty. -/
theorem psnr_parser_integrity :
    (∀ lines, matchedEntries lines = [] → get_quality_scores lines = none) ∧
    (∀ lines, (matchedEntries lines).map Prod.fst ≠
        List.range (matchedEntries lines).length →
      get_quality_scores lines = none) ∧
    ∀ lines s, get_quality_scores lines = some s → s ≠ [] := by
  refine ⟨?_, ?_, ?_⟩
  · intro lines hm
    exact goPsnr_no_match_none lines hm 0
  · intro lines hne
    rcases h : get_quality_scores lines with _ | s
    · rfl
    · refine absurd ?_ hne
      rw [List.range_eq_range']
      exact goPsnr_some_indices lines 0 [] s h
  · intro lines s h
    exact goPsnr_some_ne_nil lines 0 [] s h

/-- Witness for C4: a log whose first matched index is 1 fails, a log with
no matched line fails, and a successful one-line parse is nonempty. -/
theorem psnr_parser_integrity_witness :
    get_quality_scores ["psnr: 1 30"] = none ∧
    get_quality_scores ["no match here"] = none ∧
    ([(30 : ℚ)] : List ℚ) ≠ [] := by
  refine ⟨?_, ?_, ?_⟩
  · exact psnr_parser_integrity.2.1 ["psnr: 1 30"] (by decide)
  · exact psnr_parser_integrity.1 ["no match here"] (by decide)
  · refine psnr_parser_integrity.2.2 ["psnr: 0 30"] [(30 : ℚ)] ?_
    have hp : parsePsnrLine "psnr: 0 30" = some (0, ['3', '0']) := by decide
    have hf : pyFloat ['3', '0'] = some 30 := by
      have hs : ¬ (['3', '0'].head? = some '-') := by decide
      have t1 : List.dropWhile Char.isDigit ['3', '0'] = ([] : List Char) := by decide
      have t2 : List.takeWhile Char.isDigit ['3', '0'] = ['3', '0'] := by decide
      have n1 : natOfDigits ['3', '0'] = 30 := by decide
      rw [pyFloat, if_neg hs]
      simp only [pyFloatUnsigned, t1, t2, n1]
      norm_num
    simp [get_quality_scores, goPsnr, hp, hf]

/-! ### C8: the two-line PSNR log scenario -/

/-- C8: PSNR log "psnr: 0 34.5" then "psnr: 1 35.2" parses to the scores
[34.5, 35.2] (= [69/2, 176/5]) under the key "PSNR_scores". -/
theorem psnr_two_line_scenario :
    get_quality_result ["psnr: 0 34.5", "psnr: 1 35.2"] =
      some ("PSNR_scores", [69/2, 176/5]) := by
  have p1 : parsePsnrLine "psnr: 0 34.5" = some (0, ['3', '4', '.', '5']) := by decide
  have p2 : parsePsnrLine "psnr: 1 35.2" = some (1, ['3', '5', '.', '2']) := by decide
  have f1 : pyFloat ['3', '4', '.', '5'] = some (69/2) := by
    have hs : ¬ (['3', '4', '.', '5'].head? = some '-') := by decide
    have t1 : List.dropWhile Char.isDigit ['3', '4', '.', '5'] = '.' :: ['5'] := by decide
    have t2 : List.takeWhile Char.isDigit ['3', '4', '.', '5'] = ['3', '4'] := by decide
    have t3 : List.dropWhile Char.isDigit ['5'] = ([] : List Char) := by decide
    have t4 : List.takeWhile Char.isDigit ['5'] = ['5'] := by decide
    have n1 : natOfDigits ['3', '4'] = 34 := by decide
    have n2 : natOfDigits ['5'] = 5 := by decide
    rw [pyFloat, if_neg hs]
    simp only [pyFloatUnsigned, t1, t2, t3, t4, n1, n2]
    norm_num
  have f2 : pyFloat ['3', '5', '.', '2'] = some (176/5) := by
    have hs : ¬ (['3', '5', '.', '2'].head? = some '-') := by decide
    have t1 : List.dropWhile Char.isDigit ['3', '5', '.', '2'] = '.' :: ['2'] := by decide
    have t2 : List.takeWhile Char.isDigit ['3', '5', '.', '2'] = ['3', '5'] := by decide
    have t3 : List.dropWhile Char.isDigit ['2'] = ([] : List Char) := by decide
    have t4 : List.takeWhile Char.isDigit ['2'] = ['2'] := by decide
    have n1 : natOfDigits ['3', '5'] = 35 := by decide
    have n2 : natOfDigits ['2'] = 2 := by decide
    rw [pyFloat, if_neg hs]
    simp only [pyFloatUnsigned, t1, t2, t3, t4, n1, n2]
    norm_num
  have hk : get_scores_key psnrType = "PSNR_scores" := rfl
  simp [get_quality_result, get_quality_scores, goPsnr, p1, p2, f1, f2, hk]

/-! ### C2: executor identity and the optional parameters -/

/-- The lexicographic comparison is transitive. -/
theorem charsLe_trans : ∀ x y z, charsLe x y = true → charsLe y z = true → charsLe x z = true
  | [], _, _, _, _ => rfl
  | _ :: _, [], _, h, _ => by simp [charsLe] at h
  | _ :: _, _ :: _, [], _, h => by simp [charsLe] at h
  | a :: as, b :: bs, c :: cs, h1, h2 => by
    simp only [charsLe] at h1 h2 ⊢
    rcases Nat.lt_trichotomy a.toNat b.toNat with hab | hab | hab
    · rcases Nat.lt_trichotomy b.toNat c.toNat with hbc | hbc | hbc
      · rw [if_pos (by omega)]
      · rw [if_pos (by omega)]
      · rw [if_neg (by omega), if_pos (by omega)] at h2
        exact absurd h2 (by simp)
    · rcases Nat.lt_trichotomy b.toNat c.toNat with hbc | hbc | hbc
      · rw [if_pos (by omega)]
      · rw [if_neg (by omega), if_neg (by omega)] at h1 h2 ⊢
        exact charsLe_trans as bs cs h1 h2
      · rw [if_neg (by omega), if_pos (by omega)] at h2
        exact absurd h2 (by simp)
    · rw [if_neg (by omega), if_pos (by omega)] at h1
      exact absurd h1 (by simp)

/-- The lexicographic comparison is total. -/
theorem charsLe_total : ∀ x y, charsLe x y || charsLe y x
  | [], _ => by simp [charsLe]
  | _ :: _, [] => by simp [charsLe]
  | a :: as, b :: bs => by
    simp only [charsLe]
    split_ifs
    · rfl
    · rfl
    · rfl
    · simpa using charsLe_total as bs
  termination_by x _ => x.length

/-- The lexicographic comparison is antisymmetric. -/
theorem charsLe_antisymm : ∀ x y, charsLe x y = true → charsLe y x = true → x = y
  | [], [], _, _ => rfl
  | [], _ :: _, _, h => by simp [charsLe] at h
  | _ :: _, [], h, _ => by simp [charsLe] at h
  | a :: as, b :: bs, h1, h2 => by
    simp only [charsLe] at h1 h2
    rcases Nat.lt_trichotomy a.toNat b.toNat with hab | hab | hab
    · rw [if_neg (by omega), if_pos (by omega)] at h2
      exact absurd h2 (by simp)
    · rw [if_neg (by omega), if_neg (by omega)] at h1 h2
      have hc : a = b := by
        have ha := Char.ofNat_toNat a
        have hb := Char.ofNat_toNat b
        rw [← ha, ← hb, hab]
      rw [hc, charsLe_antisymm as bs h1 h2]
    · rw [if_neg (by omega), if_pos (by omega)] at h1
      exact absurd h1 (by simp)

/-- Transitivity of the boolean string order. -/
theorem strLe_trans (a b c : String) (hab : strLe a b) (hbc : strLe b c) : strLe a c :=
  charsLe_trans a.data b.data c.data hab hbc

/-- Totality of the boolean string order. -/
theorem strLe_total (a b : String) : strLe a b || strLe b a :=
  charsLe_total a.data b.data

/-- Antisymmetry of the boolean string order. -/
theorem strLe_antisymm (a b : String) (h1 : strLe a b = true) (h2 : strLe b a = true) : a = b :=
  congrArg String.mk (charsLe_antisymm a.data b.data h1 h2)

/-- Merge-sorting with the boolean string order is invariant under
permutation of the input. -/
theorem mergeSort_strLe_eq_of_perm (l₁ l₂ : List String) (h : l₁.Perm l₂) :
    l₁.mergeSort strLe = l₂.mergeSort strLe := by
  haveI : IsAntisymm String (fun a b => strLe a b = true) := ⟨strLe_antisymm⟩
  apply List.eq_of_perm_of_sorted (r := fun a b : String => strLe a b = true)
  · exact (List.mergeSort_perm l₁ strLe).trans (h.trans (List.mergeSort_perm l₂ strLe).symm)
  · exact List.sorted_mergeSort strLe_trans strLe_total l₁
  · exact List.sorted_mergeSort strLe_trans strLe_total l₂

/-- On association lists with no duplicate keys, key search is invariant
under permutation. -/
theorem find?_key_eq_of_perm (d₁ d₂ : List (String × String)) (h : d₁.Perm d₂) :
    (d₁.map Prod.fst).Nodup → ∀ k,
      d₁.find? (fun p => p.1 == k) = d₂.find? (fun p => p.1 == k) := by
  induction h with
  | nil =>
    intro _ k
    rfl
  | cons a t ih =>
    intro hn k
    simp only [List.map_cons, List.nodup_cons] at hn
    have hn' := hn.2
    cases hpa : (a.1 == k)
    · rw [List.find?_cons_of_neg _ (by simp [hpa]), List.find?_cons_of_neg _ (by simp [hpa])]
      exact ih hn' k
    · rw [List.find?_cons_of_pos _ (by simp [hpa]), List.find?_cons_of_pos _ (by simp [hpa])]
  | swap a b t =>
    intro hn k
    simp only [List.map_cons, List.nodup_cons, List.mem_cons, not_or] at hn
    have hba : b.1 ≠ a.1 := hn.1.1
    cases hpb : (b.1 == k)
    · cases hpa : (a.1 == k)
      · rw [List.find?_cons_of_neg _ (by simp [hpb]), List.find?_cons_of_neg _ (by simp [hpa]),
          List.find?_cons_of_neg _ (by simp [hpa]), List.find?_cons_of_neg _ (by simp [hpb])]
      · rw [List.find?_cons_of_neg _ (by simp [hpb]), List.find?_cons_of_pos _ (by simp [hpa]),
          List.find?_cons_of_pos _ (by simp [hpa])]
    · have hpa : (a.1 == k) = false := by
        have hbk : b.1 = k := by simpa using hpb
        simp [← hbk, Ne.symm hba]
      rw [List.find?_cons_of_pos _ (by simp [hpb]), List.find?_cons_of_neg _ (by simp [hpa]),
        List.find?_cons_of_pos _ (by simp [hpb])]
  | trans h₁ h₂ ih₁ ih₂ =>
    intro hn k
    have hn₂ : _ := ((h₁.map Prod.fst).nodup_iff).1 hn
    rw [ih₁ hn k, ih₂ hn₂ k]

/-- Counterexample for C2: two optional-parameter mappings that differ in
the value at key "a" (and at key "b") produce the same executor identity,
because keys and values are joined with the same underscore separator. -/
theorem executor_id_collision :
    executorIdWithOpt "VMAF_0.3.2" (some [("a", "1_b_2"), ("b", "x")]) =
      executorIdWithOpt "VMAF_0.3.2" (some [("a", "1"), ("b", "2_b_x")]) ∧
    optLookup "a" [("a", "1_b_2"), ("b", "x")] ≠ optLookup "a" [("a", "1"), ("b", "2_b_x")] := by
  constructor
  · show ((executorIdWithOpt "VMAF_0.3.2" (some [("a", "1_b_2"), ("b", "x")]) =
      executorIdWithOpt "VMAF_0.3.2" (some [("a", "1"), ("b", "2_b_x")])))
    simp only [executorIdWithOpt]
    rw [show List.map Prod.fst [("a", "1_b_2"), ("b", "x")] = ["a", "b"] from rfl,
      show List.map Prod.fst [("a", "1"), ("b", "2_b_x")] = ["a", "b"] from rfl,
      List.mergeSort_of_sorted (by decide)]
    decide
  · decide

/-- C2 amended: the executor identity recorded by _read_result is invariant
to the supply order of the optional parameters (keys are sorted before
concatenation), and for a configuration carrying a single optional
parameter (such as model_filepath) two distinct values yield distinct
identities; with several parameters, distinct mappings can collide (see
the counterexample). -/
theorem executor_id_order_invariant_and_single_key_distinct :
    (∀ (eid : String) (d₁ d₂ : List (String × String)),
      d₁.Perm d₂ → (d₁.map Prod.fst).Nodup →
      (read_result eid (some d₁) []).executorId = (read_result eid (some d₂) []).executorId) ∧
    ∀ (eid k v w : String), v ≠ w →
      (read_result eid (some [(k, v)]) []).executorId ≠
        (read_result eid (some [(k, w)]) []).executorId := by
  constructor
  · intro eid d₁ d₂ hperm hn
    show executorIdWithOpt eid (some d₁) = executorIdWithOpt eid (some d₂)
    simp only [executorIdWithOpt]
    rw [mergeSort_strLe_eq_of_perm _ _ (hperm.map Prod.fst)]
    have hfun : (fun k => k ++ "_" ++ ((optLookup k d₁).getD "")) =
        (fun k => k ++ "_" ++ ((optLookup k d₂).getD "")) := by
      funext k
      unfold optLookup
      rw [find?_key_eq_of_perm d₁ d₂ hperm hn k]
    rw [hfun]
  · intro eid k v w hvw heq
    apply hvw
    have hsingle : ∀ v' : String, executorIdWithOpt eid (some [(k, v')]) =
        eid ++ "_" ++ (k ++ "_" ++ v') := by
      intro v'
      simp only [executorIdWithOpt]
      rw [show List.map Prod.fst [(k, v')] = [k] from rfl, List.mergeSort_singleton,
        List.map_singleton,
        show optLookup k [(k, v')] = some v' from by
          unfold optLookup
          rw [List.find?_cons_of_pos _ (by simp)]
          rfl,
        Option.getD_some, intercalate_singleton]
    have heq' : executorIdWithOpt eid (some [(k, v)]) = executorIdWithOpt eid (some [(k, w)]) :=
      heq
    rw [hsingle v, hsingle w] at heq'
    exact string_append_cancel_left (string_append_cancel_left heq')

/-- Witness for C2: swapping the supply order of two optional parameters
keeps the recorded identity, and two single-parameter configurations with
different model file paths get different identities. -/
theorem executor_id_order_invariant_and_single_key_distinct_witness :
    (read_result "PSNR_1.0" (some [("b", "2"), ("a", "1")]) []).executorId =
      (read_result "PSNR_1.0" (some [("a", "1"), ("b", "2")]) []).executorId ∧
    (read_result "VMAF_0.3.2" (some [("model_filepath", "a.pkl")]) []).executorId ≠
      (read_result "VMAF_0.3.2" (some [("model_filepath", "b.pkl")]) []).executorId := by
  constructor
  · exact executor_id_order_invariant_and_single_key_distinct.1 "PSNR_1.0"
      [("b", "2"), ("a", "1")] [("a", "1"), ("b", "2")] (by decide) (by decide)
  · exact executor_id_order_invariant_and_single_key_distinct.2 "VMAF_0.3.2"
      "model_filepath" "a.pkl" "b.pkl" (by decide)
